import Mathlib

/-!
Verification development for the TIPQIC RAG chatbot repository.

The repository snapshot contains documentation (README, FILE_UPLOAD_SYSTEM.md),
the PostgreSQL auth/session schema, service shell scripts and CI configuration;
the Python pipeline scripts themselves (create_db.py, query_db.py,
chatbot_response.py) are not present.  Definitions for the pipeline are
therefore modelled from the specification and the README, as indicated in each
doc comment; the auth/session schema definitions are embedded directly from the
SQL sources.
-/

namespace TipqicRag

/-- A text chunk as in the spec data model: text, source file, page number and
starting offset of the chunk within the page.  Text is modelled as a list of
characters. -/
structure Chunk where
  text : List Char
  source_file : String
  page_number : Nat
  start_offset : Nat
deriving DecidableEq, Repr

/-- Modelled from the spec: the text splitter of `create_db.py` (absent from the
snapshot; configured in the README as
`RecursiveCharacterTextSplitter(chunk_size=300, chunk_overlap=100,
length_function=len, add_start_index=True)`).  The spec describes it as
splitting page text into overlapping fixed-size windows, so it is modelled as a
sliding character window of width `size` advancing by `size - overlap`
characters.  A degenerate configuration with `size ≤ overlap` yields a single
chunk. -/
def split_text (size overlap : Nat) (text : List Char) : List (List Char) :=
  if text.length ≤ size ∨ size - overlap = 0 then [text]
  else text.take size :: split_text size overlap (text.drop (size - overlap))
termination_by text.length
decreasing_by
  simp only [List.length_drop]
  omega

/-- A stored vector-database entry: a chunk together with its embedding, a
fixed-dimension float vector modelled as a list of rationals. -/
structure StoreEntry where
  chunk : Chunk
  embedding : List ℚ
deriving DecidableEq, Repr

/-- The Chroma vector store: the persisted (chunk text, metadata, embedding)
tuples, modelled as the list of its entries. -/
structure ChromaStore where
  entries : List StoreEntry
deriving DecidableEq, Repr

/-- Insert a (chunk, score) pair into a list that is sorted by descending
score, keeping it sorted. -/
def insert_desc (p : Chunk × ℚ) : List (Chunk × ℚ) → List (Chunk × ℚ)
  | [] => [p]
  | q :: qs => if q.2 ≤ p.2 then p :: q :: qs else q :: insert_desc p qs

/-- Sort (chunk, score) pairs by descending relevance score. -/
def sort_desc : List (Chunk × ℚ) → List (Chunk × ℚ)
  | [] => []
  | p :: ps => insert_desc p (sort_desc ps)

/-- Modelled from the spec: `search_db(query, db_path, k)` of query_db.py
(absent from the snapshot).  It embeds the question, scores every stored chunk
by similarity to it, and returns the top-k (chunk, relevance score) pairs in
descending score order.  The embedding/similarity computation done by the
hosted API is the parameter `score`. -/
def search_db (score : String → Chunk → ℚ) (db : ChromaStore) (query : String)
    (k : Nat) : List (Chunk × ℚ) :=
  (sort_desc (db.entries.map (fun e => (e.chunk, score query e.chunk)))).take k

/-- Modelled from the spec: `save_to_chroma` of create_db.py (absent from the
snapshot).  It stores every chunk with its embedding in the Chroma store, in
order; the hosted embedding API is the parameter `embed`. -/
def save_to_chroma (embed : List Char → List ℚ) (chunks : List Chunk) :
    ChromaStore :=
  ⟨chunks.map (fun c => ⟨c, embed c.text⟩)⟩

/-- Retrieve the i-th stored chunk (text and metadata) from the store. -/
def get_chunk (db : ChromaStore) (i : Nat) : Option Chunk :=
  (db.entries.get? i).map (fun e => e.chunk)

/-- The hosted language-model interface as the pipeline scripts use it:
answering a question from retrieved context, judging whether the retrieved
context contains the answer, and general background knowledge. -/
structure LlmOracle where
  answerFromDocs : String → List Chunk → String
  containsAnswer : String → List Chunk → Bool
  generalKnowledge : String → String

/-- Modelled from the spec: the response generation of query_db.py (absent
from the snapshot): it answers solely from the retrieved documents. -/
def generate_chat_response (llm : LlmOracle) (question : String)
    (docs : List Chunk) : String :=
  llm.answerFromDocs question docs

/-- Modelled from the spec: the response generation of chatbot_response.py
(absent from the snapshot): it answers from the retrieved documents and falls
back to the general knowledge of the model when the retrieved context does not
contain the answer. -/
def chatbot_response (llm : LlmOracle) (question : String)
    (docs : List Chunk) : String :=
  if llm.containsAnswer question docs then llm.answerFromDocs question docs
  else llm.generalKnowledge question

/-- The interactive-chat stop words of `query_db.py --chat` per the README:
"quit", "exit", "bye". -/
def stop_words : List String := ["quit", "exit", "bye"]

/-- Modelled from the spec: the `--chat` interactive loop of query_db.py
(absent from the snapshot), run on a finite stream of user inputs: it responds
to each input in turn and terminates at the first input that is one of the
stop words. -/
def chat_loop (respond : String → String) : List String → List String
  | [] => []
  | q :: qs => if q ∈ stop_words then [] else respond q :: chat_loop respond qs

/-- A concrete language-model oracle used as witness input. -/
def sampleLlm : LlmOracle :=
  ⟨fun _ _ => "from docs", fun _ _ => false, fun _ => "general"⟩

/-- A second oracle with the same document-grounded answers but different
general knowledge and coverage judgement. -/
def sampleLlm2 : LlmOracle :=
  ⟨fun _ _ => "from docs", fun _ _ => true, fun _ => "other"⟩

/-- Modelled from the spec: the environment variables read by the core
pipeline (create_db.py, query_db.py, chatbot_response.py; absent from the
snapshot).  Per the installation section of the README the pipeline reads the
single hosted-API key GOOGLE_API_KEY from the .env file. -/
def core_pipeline_env_vars : List String := ["GOOGLE_API_KEY"]

/-- The environment variables exported by start_services.sh for the web
service layer (frontend/backend), which is outside the core pipeline. -/
def service_env_vars : List String := ["API_HOST", "API_PORT", "EC2_PUBLIC_IP"]

/-- The post-ingestion system state: the vector store built by the one-shot
ingestion batch job, and the chat history accumulated by later queries. -/
structure SystemState where
  store : ChromaStore
  chat_history : List (String × String)

/-- Modelled from the spec: processing one question after ingestion (a query
or a chat turn): retrieve the top-k chunks from the store, generate the
response, and append the turn to the chat history.  The vector store is only
read. -/
def run_query (llm : LlmOracle) (score : String → Chunk → ℚ) (k : Nat)
    (question : String) (s : SystemState) : SystemState :=
  let results := search_db score s.store question k
  let answer := chatbot_response llm question (results.map (fun r => r.1))
  ⟨s.store, s.chat_history ++ [(question, answer)]⟩

/-- Modelled from the spec: a whole post-ingestion session, processing a list
of questions in order. -/
def run_session (llm : LlmOracle) (score : String → Chunk → ℚ) (k : Nat)
    (questions : List String) (s : SystemState) : SystemState :=
  questions.foldl (fun st q => run_query llm score k q st) s

/-- A row of the `users` table of the auth schema.  Nullable columns are
`Option`; UUIDs and timestamps are modelled as natural numbers. -/
structure UserRow where
  id : Nat
  username : Option String
  password_hash : Option String
  email : Option String
  created_at : Option Nat
  last_login : Option Nat
  is_active : Bool
  is_admin : Bool
deriving DecidableEq, Repr

/-- A row of the `user_sessions` table of the auth schema. -/
structure UserSessionRow where
  id : String
  user_id : Nat
  resume_token : Option String
  created_at : Option Nat
  expires_at : Nat
  is_active : Bool
deriving DecidableEq, Repr

/-- A row of the `chat_sessions` table of the auth schema. -/
structure ChatSessionRow where
  id : Nat
  user_id : Nat
  session_name : String
  created_at : Option Nat
  updated_at : Option Nat
  is_active : Bool
deriving DecidableEq, Repr

/-- A row of the `chat_messages` table of the auth schema.  The JSONB
`sources` column is modelled as its serialized text. -/
structure ChatMessageRow where
  id : Nat
  chat_session_id : Nat
  role : Option String
  content : Option String
  timestamp : Option Nat
  sources : Option String
deriving DecidableEq, Repr

/-- A row of the `user_tasks` table of the auth schema. -/
structure UserTaskRow where
  id : Nat
  user_id : Nat
  chat_session_id : Nat
  task_content : Option String
  task_order : Int
  is_completed : Bool
  completed_at : Option Nat
deriving DecidableEq, Repr

/-- The relational state of the auth/session schema. -/
structure AuthDb where
  users : List UserRow
  user_sessions : List UserSessionRow
  chat_sessions : List ChatSessionRow
  chat_messages : List ChatMessageRow
  user_tasks : List UserTaskRow
deriving Repr

/-- Embeds the chat_messages column constraints of the auth schema:
`role VARCHAR(20) NOT NULL CHECK (role IN (...))` restricting role to
"user" or "assistant", and `content TEXT NOT NULL`; timestamp and sources are
nullable with defaults.  A candidate row is accepted exactly when all column
constraints hold. -/
def chat_message_row_ok (r : ChatMessageRow) : Bool :=
  match r.role, r.content with
  | some ro, some _ =>
      decide (ro.length ≤ 20) && (ro == "user" || ro == "assistant")
  | _, _ => false

/-- The ids of the chat sessions owned by user `uid`. -/
def sessions_of (db : AuthDb) (uid : Nat) : List Nat :=
  (db.chat_sessions.filter (fun cs => cs.user_id == uid)).map (fun cs => cs.id)

/-- Embeds `DELETE FROM users WHERE id = uid` together with the ON DELETE
CASCADE actions declared in the auth schema: `user_sessions.user_id`,
`chat_sessions.user_id`, `user_tasks.user_id` reference users(id) and cascade;
`chat_messages.chat_session_id` and `user_tasks.chat_session_id` reference
chat_sessions(id) and cascade when a chat session of the user is removed. -/
def delete_user (db : AuthDb) (uid : Nat) : AuthDb :=
  ⟨db.users.filter (fun u => decide (u.id ≠ uid)),
   db.user_sessions.filter (fun s => decide (s.user_id ≠ uid)),
   db.chat_sessions.filter (fun cs => decide (cs.user_id ≠ uid)),
   db.chat_messages.filter
     (fun m => decide (m.chat_session_id ∉ sessions_of db uid)),
   db.user_tasks.filter
     (fun t => decide (t.user_id ≠ uid) &&
       decide (t.chat_session_id ∉ sessions_of db uid))⟩

/-- Referential integrity of the auth schema: every foreign key resolves to an
existing referenced row. -/
def fk_ok (db : AuthDb) : Prop :=
  (∀ s ∈ db.user_sessions, ∃ u ∈ db.users, u.id = s.user_id) ∧
  (∀ cs ∈ db.chat_sessions, ∃ u ∈ db.users, u.id = cs.user_id) ∧
  (∀ m ∈ db.chat_messages,
    ∃ cs ∈ db.chat_sessions, cs.id = m.chat_session_id) ∧
  (∀ t ∈ db.user_tasks, (∃ u ∈ db.users, u.id = t.user_id) ∧
    ∃ cs ∈ db.chat_sessions, cs.id = t.chat_session_id)

instance (db : AuthDb) : Decidable (fk_ok db) := by
  unfold fk_ok
  infer_instance

/-- A concrete auth database used as witness input: one user owning one login
session, one chat session with one message, and one task. -/
def sampleDb : AuthDb :=
  ⟨[⟨0, some "alice", some "h", none, none, none, true, false⟩],
   [⟨"sess", 0, none, none, 99, true⟩],
   [⟨10, 0, "New Chat", none, none, true⟩],
   [⟨5, 10, some "user", some "hi", none, some "[]"⟩],
   [⟨7, 0, 10, some "todo", 1, false, none⟩]⟩

/-- Embeds the column constraints of the `users` table: `id` PRIMARY KEY,
`username VARCHAR(50) UNIQUE NOT NULL`, `password_hash VARCHAR(255) NOT NULL`,
`email VARCHAR(255)` nullable, and the filtered unique index
`idx_users_email_unique ON users(email) WHERE email IS NOT NULL`.  An insert
is accepted exactly when these hold against the existing rows. -/
def user_insert_ok (existing : List UserRow) (u : UserRow) : Bool :=
  (match u.username with
   | some s => decide (s.length ≤ 50) &&
       existing.all (fun v => decide (v.username ≠ some s))
   | none => false) &&
  (match u.password_hash with
   | some s => decide (s.length ≤ 255)
   | none => false) &&
  existing.all (fun v => decide (v.id ≠ u.id)) &&
  (match u.email with
   | some e => decide (e.length ≤ 255) &&
       existing.all (fun v => decide (v.email ≠ some e))
   | none => true)

/-- The reachable states of the `users` table: starting from the empty table,
inserting rows the schema accepts and deleting rows.  An UPDATE is modelled as
a delete followed by an insert. -/
inductive users_reachable : List UserRow → Prop
  | empty : users_reachable []
  | insert (us : List UserRow) (u : UserRow) : users_reachable us →
      user_insert_ok us u = true → users_reachable (u :: us)
  | delete (us : List UserRow) (p : UserRow → Bool) : users_reachable us →
      users_reachable (us.filter p)

/-- A reachable users state with two NULL-email users, used as witness
input. -/
def sampleUsers : List UserRow :=
  [⟨2, some "bob", some "h2", none, none, none, true, false⟩,
   ⟨1, some "alice", some "h1", none, none, none, true, false⟩]

/-! Theorems. -/

theorem split_text_head (size overlap : Nat) (text : List Char)
    (h : overlap < size) :
    (split_text size overlap text).head? = some (text.take size) := by
  rw [split_text]
  split
  · rename_i hc
    rcases hc with hc | hc
    · simp [List.take_of_length_le hc]
    · omega
  · simp

/-- C2: for every input page text and every configuration with
`overlap < size` (300 and 100 in the shipped configuration), every chunk
produced by `split_text` has length at most `size`, and each pair of
consecutive chunks overlaps in exactly `overlap` characters: every non-final
chunk is a full window of `size` characters whose final `overlap` characters
are precisely the first `overlap` characters of the following chunk. -/
theorem split_text_size_overlap (size overlap : Nat) (text : List Char)
    (h : overlap < size) :
    (∀ c ∈ split_text size overlap text, c.length ≤ size) ∧
    List.Chain' (fun c c' => c.length = size ∧ overlap ≤ c'.length ∧
      List.drop (size - overlap) c = List.take overlap c')
      (split_text size overlap text) := by
  induction text using split_text.induct size overlap with
  | case1 text hc =>
    rcases hc with hc | hc
    · rw [split_text]
      simp [hc]
    · omega
  | case2 text hc ih =>
    push_neg at hc
    obtain ⟨hlen, hstride⟩ := hc
    rw [split_text, if_neg (by omega)]
    constructor
    · intro c hcmem
      rcases List.mem_cons.mp hcmem with rfl | hcmem
      · simp
      · exact ih.1 c hcmem
    · apply List.chain'_cons'.mpr
      refine ⟨?_, ih.2⟩
      intro b hb
      rw [split_text_head size overlap _ h] at hb
      simp only [Option.mem_def, Option.some.injEq] at hb
      subst hb
      have hlt : size < text.length := by omega
      have hdlen : (text.drop (size - overlap)).length = text.length - (size - overlap) :=
        List.length_drop ..
      refine ⟨?_, ?_, ?_⟩
      · simp [List.length_take]; omega
      · simp [List.length_take, hdlen]; omega
      · rw [List.drop_take, List.take_take]
        congr 1
        omega

/-- Witness for C2 at the shipped configuration (chunk_size 300,
chunk_overlap 100) on a 700-character page. -/
theorem split_text_size_overlap_witness :
    (100 < 300) ∧
    ((∀ c ∈ split_text 300 100 (List.replicate 700 'a'), c.length ≤ 300) ∧
     List.Chain' (fun c c' => c.length = 300 ∧ 100 ≤ c'.length ∧
       List.drop (300 - 100) c = List.take 100 c')
       (split_text 300 100 (List.replicate 700 'a'))) :=
  ⟨by decide, split_text_size_overlap 300 100 (List.replicate 700 'a') (by decide)⟩

theorem mem_insert_desc (p a : Chunk × ℚ) (l : List (Chunk × ℚ)) :
    a ∈ insert_desc p l ↔ a = p ∨ a ∈ l := by
  induction l with
  | nil => simp [insert_desc]
  | cons q qs ih =>
    rw [insert_desc]
    split
    · simp
    · simp [ih]
      tauto

theorem insert_desc_sorted (p : Chunk × ℚ) (l : List (Chunk × ℚ))
    (hl : l.Pairwise (fun a b => b.2 ≤ a.2)) :
    (insert_desc p l).Pairwise (fun a b => b.2 ≤ a.2) := by
  induction l with
  | nil => simp [insert_desc]
  | cons q qs ih =>
    rw [insert_desc]
    rcases List.pairwise_cons.mp hl with ⟨hq, hqs⟩
    split
    · rename_i hle
      apply List.pairwise_cons.mpr
      refine ⟨?_, hl⟩
      intro b hb
      rcases List.mem_cons.mp hb with rfl | hb
      · exact hle
      · exact le_trans (hq b hb) hle
    · rename_i hgt
      push_neg at hgt
      apply List.pairwise_cons.mpr
      refine ⟨?_, ih hqs⟩
      intro b hb
      rcases (mem_insert_desc p b qs).mp hb with rfl | hb
      · exact le_of_lt hgt
      · exact hq b hb

theorem sort_desc_sorted (l : List (Chunk × ℚ)) :
    (sort_desc l).Pairwise (fun a b => b.2 ≤ a.2) := by
  induction l with
  | nil => simp [sort_desc]
  | cons p ps ih => exact insert_desc_sorted p _ ih

/-- C1: for every similarity scoring, every store, every query and every
configured k, `search_db` returns at most k (chunk, relevance score) pairs,
sorted in descending order of relevance score. -/
theorem search_db_topk_sorted (score : String → Chunk → ℚ) (db : ChromaStore)
    (query : String) (k : Nat) :
    (search_db score db query k).length ≤ k ∧
    (search_db score db query k).Pairwise (fun a b => b.2 ≤ a.2) := by
  constructor
  · rw [search_db, List.length_take]
    exact min_le_left ..
  · exact List.Pairwise.take (sort_desc_sorted _)

/-- C3: the store/retrieve round trip over a stored chunk is the identity:
retrieving the i-th chunk of a store built from a chunk list returns exactly
the text and metadata of the i-th ingested chunk (and nothing for an
out-of-range index). -/
theorem save_to_chroma_roundtrip (embed : List Char → List ℚ)
    (chunks : List Chunk) (i : Nat) :
    get_chunk (save_to_chroma embed chunks) i = chunks.get? i := by
  simp [get_chunk, save_to_chroma, List.getElem?_map, Function.comp_def]

/-- C6: query_db.py answers solely from the retrieved documents — its answer
is unchanged under any change of the general knowledge or context-coverage
judgement of the model; chatbot_response.py answers from the documents when
the context contains the answer and falls back to general knowledge when it
does not; and the `--chat` loop responds to every input before the first
occurrence of a stop word ("quit", "exit" or "bye") and stops there, ignoring
later inputs. -/
theorem query_scripts_behaviour (llm llm' : LlmOracle) (question : String)
    (docs : List Chunk) (respond : String → String)
    (pre rest : List String) (w : String)
    (hf : llm.answerFromDocs = llm'.answerFromDocs)
    (hw : w ∈ stop_words) (hpre : ∀ p ∈ pre, p ∉ stop_words) :
    generate_chat_response llm question docs =
      generate_chat_response llm' question docs ∧
    (llm.containsAnswer question docs = true →
      chatbot_response llm question docs = llm.answerFromDocs question docs) ∧
    (llm.containsAnswer question docs = false →
      chatbot_response llm question docs = llm.generalKnowledge question) ∧
    chat_loop respond (pre ++ w :: rest) = pre.map respond := by
  refine ⟨?_, ?_, ?_, ?_⟩
  · rw [generate_chat_response, generate_chat_response, hf]
  · intro hca
    rw [chatbot_response, hca]
    simp
  · intro hca
    rw [chatbot_response, hca]
    simp
  · induction pre with
    | nil => simp [chat_loop, hw]
    | cons p ps ih =>
      have hp : p ∉ stop_words := hpre p (by simp)
      simp only [List.cons_append, chat_loop, if_neg hp, List.map_cons,
        List.append_eq]
      rw [ih (fun q hq => hpre q (by simp [hq]))]

/-- Witness for C6 on a concrete oracle pair and a concrete chat transcript. -/
theorem query_scripts_behaviour_witness :
    (sampleLlm.answerFromDocs = sampleLlm2.answerFromDocs ∧
     "quit" ∈ stop_words ∧ ∀ p ∈ ["hello"], p ∉ stop_words) ∧
    (generate_chat_response sampleLlm "q" [] =
       generate_chat_response sampleLlm2 "q" [] ∧
     (sampleLlm.containsAnswer "q" [] = true →
       chatbot_response sampleLlm "q" [] = sampleLlm.answerFromDocs "q" []) ∧
     (sampleLlm.containsAnswer "q" [] = false →
       chatbot_response sampleLlm "q" [] = sampleLlm.generalKnowledge "q") ∧
     chat_loop (fun s => s) (["hello"] ++ "quit" :: ["ignored"]) =
       ["hello"].map (fun s => s)) :=
  ⟨⟨rfl, by decide, by decide⟩,
   query_scripts_behaviour sampleLlm sampleLlm2 "q" [] (fun s => s)
     ["hello"] ["ignored"] "quit" rfl (by decide) (by decide)⟩

/-- C7: the environment-variable interface of the core pipeline is exactly one
variable, the hosted-API key; in particular none of the service-layer
variables belongs to it. -/
theorem core_env_interface :
    core_pipeline_env_vars = ["GOOGLE_API_KEY"] ∧
    core_pipeline_env_vars.length = 1 ∧
    ∀ v ∈ service_env_vars, v ∉ core_pipeline_env_vars := by
  refine ⟨rfl, rfl, ?_⟩
  decide

/-- C8: chunks and embeddings are created once at ingestion and never mutated
afterwards: any session of queries and chat turns executed after ingestion
leaves the stored (chunk, embedding) tuples — every entry and every field —
unchanged. -/
theorem run_session_preserves_store (llm : LlmOracle)
    (score : String → Chunk → ℚ) (k : Nat) (questions : List String)
    (s : SystemState) :
    (run_session llm score k questions s).store = s.store := by
  induction questions generalizing s with
  | nil => rfl
  | cons q qs ih => exact (ih _).trans rfl

/-- C4 counterexample: the schema enforces a CHECK constraint on role going
beyond foreign-key integrity: a chat_messages row whose non-key columns are
all present but whose role is "system" is rejected. -/
theorem chat_message_reject_system_role :
    chat_message_row_ok ⟨0, 0, some "system", some "hello", some 0, some "[]"⟩
      = false := by
  decide

/-- C4 amended: beyond foreign-key integrity, a chat_messages row must satisfy
the NOT NULL constraints on role and content and the CHECK that role is
"user" or "assistant"; every assignment of non-key column values meeting
these is accepted (timestamp and sources are unconstrained). -/
theorem chat_message_row_ok_iff (r : ChatMessageRow) :
    chat_message_row_ok r = true ↔
      (r.role = some "user" ∨ r.role = some "assistant") ∧
      r.content ≠ none := by
  rcases r with ⟨i, cs, role, content, ts, src⟩
  rcases role with _ | ro <;> rcases content with _ | c <;>
    simp [chat_message_row_ok]
  rintro (rfl | rfl) <;> decide

theorem mem_sessions_of (db : AuthDb) (uid : Nat) (cs : ChatSessionRow)
    (hcs : cs ∈ db.chat_sessions) (hu : cs.user_id = uid) :
    cs.id ∈ sessions_of db uid := by
  rw [sessions_of]
  apply List.mem_map_of_mem
  rw [List.mem_filter]
  exact ⟨hcs, by simp [hu]⟩

/-- C9: deleting a user cascades through the relational schema: after the user
row is removed, no row of user_sessions, chat_sessions, chat_messages or
user_tasks remains that references the deleted user, directly or via its chat
sessions; and a database that satisfied referential integrity before the
deletion still satisfies it afterwards, so the cascade leaves no orphan
rows. -/
theorem delete_user_cascades (db : AuthDb) (uid : Nat) (hfk : fk_ok db) :
    (∀ u ∈ (delete_user db uid).users, u.id ≠ uid) ∧
    (∀ s ∈ (delete_user db uid).user_sessions, s.user_id ≠ uid) ∧
    (∀ cs ∈ (delete_user db uid).chat_sessions, cs.user_id ≠ uid) ∧
    (∀ m ∈ (delete_user db uid).chat_messages, ∀ cs ∈ db.chat_sessions,
      cs.user_id = uid → m.chat_session_id ≠ cs.id) ∧
    (∀ t ∈ (delete_user db uid).user_tasks, t.user_id ≠ uid ∧
      ∀ cs ∈ db.chat_sessions, cs.user_id = uid → t.chat_session_id ≠ cs.id) ∧
    fk_ok (delete_user db uid) := by
  obtain ⟨hfk1, hfk2, hfk3, hfk4⟩ := hfk
  have husers : ∀ u ∈ (delete_user db uid).users, u.id ≠ uid := by
    intro u hu
    simpa using (List.mem_filter.mp hu).2
  have husess : ∀ s ∈ (delete_user db uid).user_sessions,
      s ∈ db.user_sessions ∧ s.user_id ≠ uid := by
    intro s hs
    have h2 := List.mem_filter.mp hs
    exact ⟨h2.1, by simpa using h2.2⟩
  have hcsess : ∀ cs ∈ (delete_user db uid).chat_sessions,
      cs ∈ db.chat_sessions ∧ cs.user_id ≠ uid := by
    intro cs hcs
    have h2 := List.mem_filter.mp hcs
    exact ⟨h2.1, by simpa using h2.2⟩
  have hmsg : ∀ m ∈ (delete_user db uid).chat_messages,
      m ∈ db.chat_messages ∧ m.chat_session_id ∉ sessions_of db uid := by
    intro m hm
    have h2 := List.mem_filter.mp hm
    exact ⟨h2.1, by simpa using h2.2⟩
  have htask : ∀ t ∈ (delete_user db uid).user_tasks,
      t ∈ db.user_tasks ∧ t.user_id ≠ uid ∧
        t.chat_session_id ∉ sessions_of db uid := by
    intro t ht
    have h2 := List.mem_filter.mp ht
    have h3 := h2.2
    rw [Bool.and_eq_true] at h3
    exact ⟨h2.1, by simpa using h3.1, by simpa using h3.2⟩
  have huser_mem : ∀ u ∈ db.users, u.id ≠ uid →
      u ∈ (delete_user db uid).users := by
    intro u hu hne
    exact List.mem_filter.mpr ⟨hu, by simpa using hne⟩
  have hcs_mem : ∀ cs ∈ db.chat_sessions, cs.user_id ≠ uid →
      cs ∈ (delete_user db uid).chat_sessions := by
    intro cs h1 h2
    exact List.mem_filter.mpr ⟨h1, by simpa using h2⟩
  refine ⟨husers, fun s hs => (husess s hs).2, fun cs hcs => (hcsess cs hcs).2,
    ?_, ?_, ?_, ?_, ?_, ?_⟩
  · intro m hm cs hcs hcu heq
    exact (hmsg m hm).2 (heq ▸ mem_sessions_of db uid cs hcs hcu)
  · intro t ht
    refine ⟨(htask t ht).2.1, ?_⟩
    intro cs hcs hcu heq
    exact (htask t ht).2.2 (heq ▸ mem_sessions_of db uid cs hcs hcu)
  · intro s hs
    obtain ⟨hsorig, hsne⟩ := husess s hs
    obtain ⟨u, hu, huid⟩ := hfk1 s hsorig
    exact ⟨u, huser_mem u hu (by rw [huid]; exact hsne), huid⟩
  · intro cs hcs
    obtain ⟨hcorig, hcne⟩ := hcsess cs hcs
    obtain ⟨u, hu, huid⟩ := hfk2 cs hcorig
    exact ⟨u, huser_mem u hu (by rw [huid]; exact hcne), huid⟩
  · intro m hm
    obtain ⟨hmorig, hmdead⟩ := hmsg m hm
    obtain ⟨cs, hcs, hcsid⟩ := hfk3 m hmorig
    have hne : cs.user_id ≠ uid := by
      intro hcu
      exact hmdead (hcsid ▸ mem_sessions_of db uid cs hcs hcu)
    exact ⟨cs, hcs_mem cs hcs hne, hcsid⟩
  · intro t ht
    obtain ⟨htorig, htu, htdead⟩ := htask t ht
    obtain ⟨⟨u, hu, huid⟩, cs, hcs, hcsid⟩ := hfk4 t htorig
    constructor
    · exact ⟨u, huser_mem u hu (by rw [huid]; exact htu), huid⟩
    · have hne : cs.user_id ≠ uid := by
        intro hcu
        exact htdead (hcsid ▸ mem_sessions_of db uid cs hcs hcu)
      exact ⟨cs, hcs_mem cs hcs hne, hcsid⟩

/-- Witness for C9 on a concrete database: deleting user 0 removes the login
session, the chat session, its message and the task, and referential
integrity is preserved. -/
theorem delete_user_cascades_witness :
    fk_ok sampleDb ∧
    ((∀ u ∈ (delete_user sampleDb 0).users, u.id ≠ 0) ∧
     (∀ s ∈ (delete_user sampleDb 0).user_sessions, s.user_id ≠ 0) ∧
     (∀ cs ∈ (delete_user sampleDb 0).chat_sessions, cs.user_id ≠ 0) ∧
     (∀ m ∈ (delete_user sampleDb 0).chat_messages,
       ∀ cs ∈ sampleDb.chat_sessions,
       cs.user_id = 0 → m.chat_session_id ≠ cs.id) ∧
     (∀ t ∈ (delete_user sampleDb 0).user_tasks, t.user_id ≠ 0 ∧
       ∀ cs ∈ sampleDb.chat_sessions,
       cs.user_id = 0 → t.chat_session_id ≠ cs.id) ∧
     fk_ok (delete_user sampleDb 0)) :=
  ⟨by decide, delete_user_cascades sampleDb 0 (by decide)⟩

/-- C10: in every reachable state of the users table, username is non-NULL
and unconditionally unique, while email uniqueness holds only between
non-NULL emails: no two users share the same non-NULL email, and users with
NULL email are unconstrained, so any number of them may coexist — the witness
exhibits a reachable state with two of them. -/
theorem users_email_uniqueness (us : List UserRow)
    (h : users_reachable us) :
    (∀ u ∈ us, u.username ≠ none) ∧
    us.Pairwise (fun u v => u.username ≠ v.username ∧
      ∀ e, u.email = some e → v.email ≠ some e) := by
  induction h with
  | empty => simp
  | insert us u hr hok ih =>
    obtain ⟨hnn, hpw⟩ := ih
    rw [user_insert_ok] at hok
    simp only [Bool.and_eq_true] at hok
    obtain ⟨⟨⟨hname, -⟩, -⟩, hemail⟩ := hok
    constructor
    · intro v hv
      rcases List.mem_cons.mp hv with rfl | hv
      · rcases hu : v.username with _ | s
        · rw [hu] at hname
          simp at hname
        · simp
      · exact hnn v hv
    · apply List.pairwise_cons.mpr
      refine ⟨?_, hpw⟩
      intro v hv
      constructor
      · rcases hu : u.username with _ | s
        · rw [hu] at hname
          simp at hname
        · rw [hu] at hname
          simp only [Bool.and_eq_true, List.all_eq_true, decide_eq_true_eq]
            at hname
          exact fun heq => hname.2 v hv heq.symm
      · intro e hue
        rw [hue] at hemail
        simp only [List.all_eq_true, Bool.and_eq_true, decide_eq_true_eq]
          at hemail
        exact hemail.2 v hv
  | delete us p hr ih =>
    obtain ⟨hnn, hpw⟩ := ih
    exact ⟨fun u hu => hnn u (List.mem_of_mem_filter hu), hpw.filter p⟩

/-- Witness for C10: a reachable state holding two users that both have NULL
email (showing the email constraint is filtered) while usernames stay unique
and non-NULL. -/
theorem users_email_uniqueness_witness :
    users_reachable sampleUsers ∧
    ((∀ u ∈ sampleUsers, u.username ≠ none) ∧
     sampleUsers.Pairwise (fun u v => u.username ≠ v.username ∧
       ∀ e, u.email = some e → v.email ≠ some e)) := by
  have hreach : users_reachable sampleUsers :=
    users_reachable.insert _ _
      (users_reachable.insert _ _ users_reachable.empty (by decide))
      (by decide)
  exact ⟨hreach, users_email_uniqueness sampleUsers hreach⟩

end TipqicRag
